import Mathlib

/-!
Shallow embedding of `src/multi_pdf_agent/multi_pdf_agent_app.py`, a
Streamlit document question-answering app.  Strings are modelled as
`List Char`; PDF files as a name plus a fallible read result (one page
text per page, `Except.error` when the reader raises); the external
generation capability as an oracle function.  Streamlit's
`st.cache_resource` on `create_qa_chain(_docs)` excludes the
underscore-prefixed `_docs` argument from the cache key, so the cache is
modelled as a single global optional entry.
-/

deriving instance DecidableEq for Except

namespace MultiPdfAgent

/-- A loaded text unit: one page's extracted text with provenance,
mirroring `Document(page_content=text, metadata={"source": filename,
"page": page_num + 1})` (lines 55-56). -/
structure Doc where
  source : List Char
  page : Nat
  content : List Char
deriving DecidableEq

/-- A file of the corpus folder: its name and the result of reading it
with `PdfReader` and extracting each page's text.  `Except.error` models
`PdfReader`/`extract_text` raising on a corrupt or unreadable file; a
page whose extraction yields `None` or the empty string is an empty
list. -/
structure PdfFile where
  name : List Char
  readResult : Except Unit (List (List Char))
deriving DecidableEq

/-- The characters of the suffix checked by `filename.endswith(".pdf")`
(line 49). -/
def pdfExt : List Char := ['.', 'p', 'd', 'f']

/-- `filename.endswith(".pdf")` (line 49). -/
def isPdfName (n : List Char) : Bool := pdfExt.isSuffixOf n

/-- The inner page loop of `load_pdfs_from_folder` (lines 52-56):
`for page_num, page in enumerate(reader.pages): text =
page.extract_text(); if text: all_docs.append(...)`.  `n` is the page
number of the next page (`page_num + 1` starts at 1); a falsy (empty)
text is skipped, anything else yields one `Doc`. -/
def pageDocsAux (name : List Char) (n : Nat) : List (List Char) → List Doc
  | [] => []
  | t :: ts => (if t = [] then [] else [⟨name, n, t⟩]) ++ pageDocsAux name (n + 1) ts

/-- The docs contributed by one readable PDF file (pages numbered from 1). -/
def pageDocs (name : List Char) (ps : List (List Char)) : List Doc :=
  pageDocsAux name 1 ps

/-- `load_pdfs_from_folder` (lines 45-57): iterate over the folder's
files; non-`.pdf` names are skipped; a `.pdf` file is read with
`PdfReader` — there is no `try`/`except`, so a raised exception
propagates out of the whole function and nothing is returned. -/
def load_pdfs_from_folder : List PdfFile → Except Unit (List Doc)
  | [] => .ok []
  | f :: fs =>
    if isPdfName f.name then
      match f.readResult with
      | .error e => .error e
      | .ok pages =>
        match load_pdfs_from_folder fs with
        | .error e => .error e
        | .ok rest => .ok (pageDocs f.name pages ++ rest)
    else load_pdfs_from_folder fs

/-- Python `s.lower()` on the model's character lists. -/
def pyLower (s : List Char) : List Char := s.map Char.toLower

/-- Python's substring test `needle in hay`; the empty needle is a
substring of every string. -/
def pySubstr (needle : List Char) : List Char → Bool
  | [] => needle.isEmpty
  | c :: rest => needle.isPrefixOf (c :: rest) || pySubstr needle rest

/-- `filenames = list(set([doc.metadata["source"] for doc in docs]))`
(line 62). -/
def filenamesOf (docs : List Doc) : List (List Char) := (docs.map Doc.source).dedup

/-- `filtered_files = [f for f in filenames if search_query.lower() in
f.lower()]` (line 64). -/
def filtered_files (docs : List Doc) (q : List Char) : List (List Char) :=
  (filenamesOf docs).filter (fun f => pySubstr (pyLower q) (pyLower f))

/-- `filtered_docs = [doc for doc in docs if doc.metadata["source"] in
filtered_files]` (line 65). -/
def filtered_docs (docs : List Doc) (q : List Char) : List Doc :=
  docs.filter (fun d => decide (d.source ∈ filtered_files docs q))

/-- One entry of `st.session_state.chat_history` (lines 105-109). -/
structure Exchange where
  question : List Char
  answer : List Char
  sources : List Doc
deriving DecidableEq

/-- The object returned by `create_qa_chain`: a
`ConversationalRetrievalChain` whose retriever serves the FAISS index
built with `FAISS.from_documents(_docs, embeddings)` — each given `Doc`
is embedded as-is, with no splitting — plus its
`ConversationBufferMemory`. -/
structure QAChain where
  indexDocs : List Doc
  memory : List Exchange
deriving DecidableEq

/-- What `qa_chain({"question": query})` returns: `result["answer"]` and
`result["source_documents"]` (lines 100-102). -/
structure SynthOut where
  answer : List Char
  source_documents : List Doc
deriving DecidableEq

/-- The per-session mutable state: the single `st.cache_resource` entry
of `create_qa_chain` (its `_docs` argument is underscore-prefixed, hence
excluded from the cache key, so there is at most one entry, keyed on
nothing) and `st.session_state.chat_history`. -/
structure AppState where
  chainCache : Option QAChain
  chat_history : List Exchange
deriving DecidableEq

/-- The body of `create_qa_chain(_docs)` (lines 77-87): build a FAISS
index over exactly the given docs and a fresh empty conversation
memory. -/
def buildChain (ds : List Doc) : QAChain := ⟨ds, []⟩

/-- `create_qa_chain(filtered_docs)` as called through
`st.cache_resource` (lines 76-89): on a cache hit the stored chain is
returned unchanged — the `_docs` argument is not part of the key — and
only on the very first call is the body run and its result stored. -/
def create_qa_chain_cached (s : AppState) (ds : List Doc) : QAChain × AppState :=
  match s.chainCache with
  | some ch => (ch, s)
  | none => (buildChain ds, ⟨some (buildChain ds), s.chat_history⟩)

/-- The observable outcome of one script run's question block.
`answered` is a displayed answer; `noDocsMessage` is the explicit
"no documents available" result the spec calls for (no code path
produces it); `silent` is the code's behaviour when the guarded block
`if query and qa_chain:` (line 98) is skipped: nothing at all. -/
inductive AskOutcome where
  | answered (ex : Exchange)
  | noDocsMessage
  | silent
deriving DecidableEq

/-- The external generation capability behind
`qa_chain({"question": query})`: from the question, the chain's
conversation memory and the indexed docs it produces an answer with
source documents, or fails (`SynthesisError`). -/
abbrev LLM : Type := List Char → List Exchange → List Doc → Except Unit SynthOut

/-- One script run of lines 89-109: compute `qa_chain =
create_qa_chain(filtered_docs) if filtered_docs else None`; then
`if query and qa_chain:` run the chain and append
`{"question", "answer", "sources"}` to `st.session_state.chat_history`.
On success the chain's own memory also records the turn; if the chain
call raises, the exception propagates and no state is written. -/
def runQuery (llm : LLM) (docs : List Doc) (search_query query : List Char)
    (s : AppState) : AppState × Except Unit AskOutcome :=
  if (filtered_docs docs search_query).isEmpty then
    (s, .ok .silent)
  else if query.isEmpty then
    ((create_qa_chain_cached s (filtered_docs docs search_query)).2, .ok .silent)
  else
    match llm query (create_qa_chain_cached s (filtered_docs docs search_query)).1.memory
        (create_qa_chain_cached s (filtered_docs docs search_query)).1.indexDocs with
    | .error e => ((create_qa_chain_cached s (filtered_docs docs search_query)).2, .error e)
    | .ok out =>
      (⟨some ⟨(create_qa_chain_cached s (filtered_docs docs search_query)).1.indexDocs,
          (create_qa_chain_cached s (filtered_docs docs search_query)).1.memory
            ++ [⟨query, out.answer, out.source_documents⟩]⟩,
        (create_qa_chain_cached s (filtered_docs docs search_query)).2.chat_history
          ++ [⟨query, out.answer, out.source_documents⟩]⟩,
        .ok (.answered ⟨query, out.answer, out.source_documents⟩))

/-- The Clear Conversation button handler (lines 126-131):
`st.session_state.chat_history = []`, then `if qa_chain:
qa_chain.memory.clear()` — where `qa_chain` is the value line 89
computed in this same script run: the cached chain when the filtered
corpus is nonempty, `None` otherwise (in which case no memory is
cleared). -/
def clearConversation (docs : List Doc) (search_query : List Char) (s : AppState) : AppState :=
  if (filtered_docs docs search_query).isEmpty then
    ⟨s.chainCache, []⟩
  else
    ⟨(create_qa_chain_cached s (filtered_docs docs search_query)).2.chainCache.map
        (fun ch => ⟨ch.indexDocs, []⟩), []⟩

/-! Concrete inputs used by the witnesses and counterexamples. -/

/-- The characters of the filename a.pdf. -/
def nameA : List Char := ['a', '.', 'p', 'd', 'f']

/-- The characters of the filename b.pdf. -/
def nameB : List Char := ['b', '.', 'p', 'd', 'f']

/-- Page 1 of a.pdf. -/
def dA : Doc := ⟨nameA, 1, ['x']⟩

/-- Page 1 of b.pdf. -/
def dB : Doc := ⟨nameB, 1, ['y']⟩

/-- A two-document corpus. -/
def docsAB : List Doc := [dA, dB]

/-- A filter string matching only a.pdf. -/
def qFa : List Char := ['a']

/-- A filter string matching only b.pdf. -/
def qFb : List Char := ['b']

/-- A filter string matching no filename. -/
def qNone : List Char := ['z', 'z', 'z']

/-- A nonempty question. -/
def qAsk : List Char := ['w', 'h', 'y']

/-- The initial session state: empty cache, empty chat history. -/
def s0 : AppState := ⟨none, []⟩

/-- A generation capability that always succeeds, echoing the question
and citing every indexed doc. -/
def llm0 : LLM := fun q _h ds => .ok ⟨q, ds⟩

/-- A generation capability that always fails (`SynthesisError`). -/
def llmFail : LLM := fun _q _h _ds => .error ()

/-- A stale prior exchange. -/
def exStale : Exchange := ⟨['o'], ['k'], []⟩

/-- A state carrying a cached chain with nonempty conversation memory
and a nonempty chat history. -/
def sStale : AppState := ⟨some ⟨[dA], [exStale]⟩, [exStale]⟩

/-- A readable one-page PDF file. -/
def goodFile : PdfFile := ⟨nameA, .ok [['x']]⟩

/-- A corrupt PDF file: `PdfReader` raises on it. -/
def badFile : PdfFile := ⟨nameB, .error ()⟩

/-! Helper lemmas shared by the claim theorems. -/

/-- The empty needle is a substring of every string, as in Python. -/
lemma pySubstr_nil (hay : List Char) : pySubstr [] hay = true := by
  cases hay <;> rfl

/-- `create_qa_chain` never touches the chat history. -/
lemma create_qa_chain_cached_chat (s : AppState) (ds : List Doc) :
    (create_qa_chain_cached s ds).2.chat_history = s.chat_history := by
  obtain ⟨cache, hist⟩ := s
  cases cache <;> rfl

/-- On a warm cache, `create_qa_chain` returns the stored chain and
leaves the state alone, whatever docs it is handed. -/
lemma create_qa_chain_cached_hit (s : AppState) (ds : List Doc) (ch : QAChain)
    (h : s.chainCache = some ch) : create_qa_chain_cached s ds = (ch, s) := by
  unfold create_qa_chain_cached
  rw [h]

/-! The claim theorems. -/

/-- Claim C10: the corpus filter is a case-insensitive substring match
on filenames — a document is in the active subset iff the lowercased
filter string occurs in its lowercased filename — and the empty filter
string selects the whole corpus. -/
theorem corpus_filter_substring_spec :
    (∀ (docs : List Doc) (q : List Char) (d : Doc),
        d ∈ filtered_docs docs q
          ↔ (d ∈ docs ∧ pySubstr (pyLower q) (pyLower d.source) = true))
    ∧ ∀ docs : List Doc, filtered_docs docs [] = docs := by
  constructor
  · intro docs q d
    simp only [filtered_docs, List.mem_filter, decide_eq_true_eq, filtered_files,
      filenamesOf, List.mem_dedup, List.mem_map]
    constructor
    · rintro ⟨hd, _, hsub⟩
      exact ⟨hd, hsub⟩
    · rintro ⟨hd, hsub⟩
      exact ⟨hd, ⟨d, hd, rfl⟩, hsub⟩
  · intro docs
    unfold filtered_docs
    rw [List.filter_eq_self]
    intro d hd
    simp only [decide_eq_true_eq, filtered_files, filenamesOf, List.mem_filter,
      List.mem_dedup, List.mem_map]
    exact ⟨⟨d, hd, rfl⟩, pySubstr_nil _⟩

/-- Claim C10, witness at a concrete corpus, filter and document. -/
theorem corpus_filter_substring_spec_witness :
    (dA ∈ filtered_docs docsAB qFa
        ↔ (dA ∈ docsAB ∧ pySubstr (pyLower qFa) (pyLower dA.source) = true)) ∧
    filtered_docs docsAB [] = docsAB :=
  ⟨corpus_filter_substring_spec.1 docsAB qFa dA, corpus_filter_substring_spec.2 docsAB⟩

/-- Claim C1: the failing scenario, evaluated on the model.  With corpus
{a.pdf, b.pdf}, a first script run with filter matching only a.pdf
builds and caches the chain over a.pdf's docs; after the filter changes
to match only b.pdf, the cached chain is returned unchanged — its index
still holds a.pdf's segments, it is not rebuilt over the new filtered
set, and an ask is answered with sources drawn from the old set. -/
theorem stale_index_after_filter_change :
    filtered_docs docsAB qFa = [dA] ∧
    filtered_docs docsAB qFb = [dB] ∧
    (runQuery llm0 docsAB qFa [] s0).1.chainCache = some ⟨[dA], []⟩ ∧
    (runQuery llm0 docsAB qFb qAsk (runQuery llm0 docsAB qFa [] s0).1).1.chainCache
        = some ⟨[dA], [⟨qAsk, qAsk, [dA]⟩]⟩ ∧
    (runQuery llm0 docsAB qFb qAsk (runQuery llm0 docsAB qFa [] s0).1).2
        = .ok (.answered ⟨qAsk, qAsk, [dA]⟩) :=
  ⟨by decide, by decide, by decide, by decide, by decide⟩

/-- Claim C2, counterexample: one corrupt file aborts the whole load —
with [a.pdf readable, b.pdf corrupt] the loader raises and returns no
docs at all, although a.pdf alone loads fine; the readable files' text
units are not returned. -/
theorem corrupt_file_aborts_load_cex :
    load_pdfs_from_folder [goodFile, badFile] = .error () ∧
    load_pdfs_from_folder [goodFile] = .ok [dA] :=
  ⟨by decide, by decide⟩

/-- Claim C3, counterexample: with a filter matching no file and a
nonempty question, the run produces the silent outcome (the guarded
block is skipped), not the explicit no-documents result, and is
observationally identical to not asking at all; the transcript is
unchanged. -/
theorem empty_corpus_silent_cex :
    runQuery llm0 docsAB qNone qAsk sStale = (sStale, .ok .silent) ∧
    (Except.ok AskOutcome.silent : Except Unit AskOutcome) ≠ .ok .noDocsMessage ∧
    runQuery llm0 docsAB qNone qAsk sStale = runQuery llm0 docsAB qNone [] sStale :=
  ⟨by decide, by decide, by decide⟩

/-- Claim C4, counterexample: a page whose extracted text is the single
space — whitespace-only — is truthy in Python, so it is kept as a text
unit rather than omitted. -/
theorem whitespace_page_kept_cex :
    ([' '] : List Char).all Char.isWhitespace = true ∧
    load_pdfs_from_folder [⟨nameA, .ok [[' ']]⟩] = .ok [⟨nameA, 1, [' ']⟩] :=
  ⟨by decide, by decide⟩

/-- Claim C7, counterexample: clearing while the filtered corpus is
empty (qa_chain is None) empties the chat history but skips
`qa_chain.memory.clear()`, leaving the cached chain's conversation
memory nonempty — a partial clear. -/
theorem clear_leaves_stale_memory_cex :
    (clearConversation [dA] qNone sStale).chat_history = [] ∧
    (clearConversation [dA] qNone sStale).chainCache = some ⟨[dA], [exStale]⟩ ∧
    ([exStale] : List Exchange) ≠ [] :=
  ⟨by decide, by decide, by decide⟩

/-- Claim C3, amended: when the filtered corpus is empty, the run is a
silent no-op — no chain is built, no retrieval or synthesis is
attempted, the whole state (transcript included) is unchanged — but the
outcome is `silent`, not an explicit no-documents result. -/
theorem empty_corpus_silently_skipped (llm : LLM) (docs : List Doc) (sq q : List Char)
    (s : AppState) (h : filtered_docs docs sq = []) :
    runQuery llm docs sq q s = (s, .ok .silent) := by
  simp [runQuery, h]

/-- Claim C3, amended, witness at a concrete empty-filter state. -/
theorem empty_corpus_silently_skipped_witness :
    runQuery llm0 docsAB qNone qAsk sStale = (sStale, .ok .silent) :=
  empty_corpus_silently_skipped llm0 docsAB qNone qAsk sStale (by decide)

/-- Claim C5: whenever a run's outcome is a successfully answered
exchange, the chat history of the resulting state is exactly the prior
history with the new exchange appended at the end — prior entries are
unchanged and the length grows by exactly one. -/
theorem ask_appends_exactly_one (llm : LLM) (docs : List Doc) (sq q : List Char)
    (s : AppState) (ex : Exchange)
    (h : (runQuery llm docs sq q s).2 = .ok (.answered ex)) :
    (runQuery llm docs sq q s).1.chat_history = s.chat_history ++ [ex] ∧
    (runQuery llm docs sq q s).1.chat_history.length = s.chat_history.length + 1 := by
  obtain ⟨exq, exa, exs⟩ := ex
  cases hf : (filtered_docs docs sq).isEmpty with
  | true => simp [runQuery, hf] at h
  | false =>
    cases hq : q.isEmpty with
    | true => simp [runQuery, hf, hq] at h
    | false =>
      cases hllm : llm q (create_qa_chain_cached s (filtered_docs docs sq)).1.memory
          (create_qa_chain_cached s (filtered_docs docs sq)).1.indexDocs with
      | error e => simp [runQuery, hf, hq, hllm] at h
      | ok out =>
        simp only [runQuery, hf, hq, hllm, Bool.false_eq_true, if_false,
          Except.ok.injEq, AskOutcome.answered.injEq, Exchange.mk.injEq] at h
        obtain ⟨hq1, hq2, hq3⟩ := h
        subst hq1
        subst hq2
        subst hq3
        simp [runQuery, hf, hq, hllm, create_qa_chain_cached_chat]

/-- Claim C5, witness at a concrete successful ask. -/
theorem ask_appends_exactly_one_witness :
    (runQuery llm0 docsAB qFa qAsk s0).1.chat_history
        = s0.chat_history ++ [⟨qAsk, qAsk, [dA]⟩] ∧
    (runQuery llm0 docsAB qFa qAsk s0).1.chat_history.length
        = s0.chat_history.length + 1 :=
  ask_appends_exactly_one llm0 docsAB qFa qAsk s0 ⟨qAsk, qAsk, [dA]⟩ (by decide)

/-- Claim C6: when the generation capability fails, the error is the
run's outcome, the chat history is unchanged and a previously cached
chain (with its conversation memory) is untouched — no exchange is
appended. -/
theorem synthesis_error_preserves_state (llm : LLM) (docs : List Doc) (sq q : List Char)
    (s : AppState) (e : Unit)
    (h : (runQuery llm docs sq q s).2 = .error e) :
    (runQuery llm docs sq q s).1.chat_history = s.chat_history ∧
    ∀ ch, s.chainCache = some ch → (runQuery llm docs sq q s).1.chainCache = some ch := by
  cases hf : (filtered_docs docs sq).isEmpty with
  | true => simp [runQuery, hf] at h
  | false =>
    cases hq : q.isEmpty with
    | true => simp [runQuery, hf, hq] at h
    | false =>
      cases hllm : llm q (create_qa_chain_cached s (filtered_docs docs sq)).1.memory
          (create_qa_chain_cached s (filtered_docs docs sq)).1.indexDocs with
      | ok out => simp [runQuery, hf, hq, hllm] at h
      | error e' =>
        constructor
        · simp [runQuery, hf, hq, hllm, create_qa_chain_cached_chat]
        · intro ch hch
          simp only [runQuery, hf, hq, hllm, Bool.false_eq_true, if_false]
          rw [create_qa_chain_cached_hit s (filtered_docs docs sq) ch hch]
          exact hch

/-- Claim C6, witness at a concrete failing ask. -/
theorem synthesis_error_preserves_state_witness :
    (runQuery llmFail docsAB qFa qAsk sStale).1.chat_history = sStale.chat_history ∧
    ∀ ch, sStale.chainCache = some ch →
      (runQuery llmFail docsAB qFa qAsk sStale).1.chainCache = some ch :=
  synthesis_error_preserves_state llmFail docsAB qFa qAsk sStale () (by decide)

/-- Claim C7, amended: after the clear button's handler runs the chat
history is always empty, whatever its prior length; and when a QA chain
is active (the filtered corpus is nonempty) the cached chain's
conversation memory is cleared as well.  (When the filtered corpus is
empty at clear time, a previously cached chain's memory is left as it
was — see the counterexample.) -/
theorem clear_empties_transcript (docs : List Doc) (sq : List Char) (s : AppState) :
    (clearConversation docs sq s).chat_history = [] ∧
    ((filtered_docs docs sq).isEmpty = false →
      ∀ ch, (clearConversation docs sq s).chainCache = some ch → ch.memory = []) := by
  cases hf : (filtered_docs docs sq).isEmpty with
  | true =>
    refine ⟨by simp [clearConversation, hf], ?_⟩
    intro hcontra
    exact absurd hcontra (by simp [hf])
  | false =>
    constructor
    · simp [clearConversation, hf]
    · intro _ ch hch
      simp only [clearConversation, hf, Bool.false_eq_true, if_false] at hch
      obtain ⟨ch0, _, hch0⟩ := Option.map_eq_some'.mp hch
      rw [← hch0]

/-- Claim C7, amended, witness at a concrete state with a nonempty
transcript and an active chain. -/
theorem clear_empties_transcript_witness :
    (clearConversation docsAB qFa sStale).chat_history = [] ∧
    ((filtered_docs docsAB qFa).isEmpty = false →
      ∀ ch, (clearConversation docsAB qFa sStale).chainCache = some ch →
        ch.memory = []) :=
  clear_empties_transcript docsAB qFa sStale

/-- Claim C2, amended theorem: one corrupt or unreadable PDF file makes
the whole load fail — the raised exception propagates out of
`load_pdfs_from_folder` (there is no per-file try/except), so no text
units are returned for any file. -/
theorem corrupt_pdf_fails_whole_load (files : List PdfFile)
    (h : ∃ f ∈ files, isPdfName f.name = true ∧ f.readResult = .error ()) :
    load_pdfs_from_folder files = .error () := by
  induction files with
  | nil => simp at h
  | cons f fs ih =>
    obtain ⟨g, hg, hpdf, herr⟩ := h
    rcases List.mem_cons.mp hg with rfl | hgfs
    · simp [load_pdfs_from_folder, hpdf, herr]
    · have htail := ih ⟨g, hgfs, hpdf, herr⟩
      by_cases hp : isPdfName f.name
      · cases hr : f.readResult with
        | error e =>
          cases e
          simp [load_pdfs_from_folder, hp, hr]
        | ok pages => simp [load_pdfs_from_folder, hp, hr, htail]
      · simp [load_pdfs_from_folder, hp, htail]

/-- Claim C2, amended, witness: a corpus with one readable and one
corrupt file loads nothing. -/
theorem corrupt_pdf_fails_whole_load_witness :
    load_pdfs_from_folder [badFile, goodFile] = .error () :=
  corrupt_pdf_fails_whole_load [badFile, goodFile] ⟨badFile, by decide, by decide, by decide⟩

/-- Every doc the page loop yields from page counter `n` onward has page
number at least `n`. -/
lemma pageDocsAux_page_lb (name : List Char) :
    ∀ (ps : List (List Char)) (n : Nat) (d : Doc), d ∈ pageDocsAux name n ps → n ≤ d.page := by
  intro ps
  induction ps with
  | nil =>
    intro n d hd
    simp [pageDocsAux] at hd
  | cons t ts ih =>
    intro n d hd
    simp only [pageDocsAux, List.mem_append] at hd
    rcases hd with hd | hd
    · by_cases ht : t = []
      · simp [ht] at hd
      · rw [if_neg ht] at hd
        simp only [List.mem_singleton] at hd
        subst hd
        exact Nat.le_refl n
    · exact Nat.le_trans (Nat.le_succ n) (ih (n + 1) d hd)

/-- Exact occurrence count of a given page number among one file's
docs: zero when that page's text is empty, one otherwise. -/
lemma pageDocsAux_count (name : List Char) :
    ∀ (ps : List (List Char)) (n i : Nat) (h : i < ps.length),
      ((pageDocsAux name n ps).filter (fun d => decide (d.page = n + i))).length
        = if ps.get ⟨i, h⟩ = [] then 0 else 1 := by
  intro ps
  induction ps with
  | nil =>
    intro n i h
    exact absurd h (Nat.not_lt_zero i)
  | cons t ts ih =>
    intro n i h
    have htail0 : ∀ p : Nat, p < n + 1 →
        ((pageDocsAux name (n + 1) ts).filter (fun d => decide (d.page = p))).length = 0 := by
      intro p hp
      rw [List.length_eq_zero, List.filter_eq_nil_iff]
      intro d hd
      have hlb := pageDocsAux_page_lb name ts (n + 1) d hd
      simp only [decide_eq_true_eq]
      omega
    cases i with
    | zero =>
      have hget : (t :: ts).get ⟨0, h⟩ = t := rfl
      rw [hget]
      simp only [pageDocsAux, List.filter_append, List.length_append, Nat.add_zero,
        htail0 n (by omega)]
      by_cases ht : t = []
      · rw [if_pos ht, if_pos ht]
        rfl
      · rw [if_neg ht, if_neg ht]
        simp
    | succ j =>
      have hj : j < ts.length := by
        simp only [List.length_cons] at h
        omega
      have hget : (t :: ts).get ⟨j + 1, h⟩ = ts.get ⟨j, hj⟩ := rfl
      rw [hget]
      have hhead : ((if t = [] then ([] : List Doc) else [⟨name, n, t⟩]).filter
          (fun d => decide (d.page = n + (j + 1)))).length = 0 := by
        by_cases ht : t = []
        · rw [if_pos ht]
          rfl
        · rw [if_neg ht]
          have hfalse : decide ((⟨name, n, t⟩ : Doc).page = n + (j + 1)) = false := by
            simp only [decide_eq_false_iff_not]
            show ¬(n = n + (j + 1))
            omega
          simp [List.filter_cons, hfalse]
      simp only [pageDocsAux, List.filter_append, List.length_append, hhead, Nat.zero_add]
      have harith : n + (j + 1) = (n + 1) + j := by omega
      rw [harith]
      exact ih (n + 1) j hj

/-- Claim C4, amended: a page is omitted from the loader's output iff
its extracted text is empty (falsy) — whitespace-only text is kept —
and every page with nonempty extracted text yields exactly one text
unit: for each page index of a loaded file, exactly
`if text empty then 0 else 1` docs carry its 1-indexed page number. -/
theorem page_omitted_iff_empty (name : List Char) (ps : List (List Char)) (i : Nat)
    (h : i < ps.length) :
    ((pageDocs name ps).filter (fun d => decide (d.page = i + 1))).length
      = if ps.get ⟨i, h⟩ = [] then 0 else 1 := by
  have hcount := pageDocsAux_count name ps 1 i h
  rw [pageDocs]
  have harith : 1 + i = i + 1 := by omega
  rw [harith] at hcount
  exact hcount

/-- Claim C4, amended, witness for a two-page file: the nonempty first
page yields one doc, the empty second page yields none. -/
theorem page_omitted_iff_empty_witness :
    ((pageDocs nameA [['x'], []]).filter (fun d => decide (d.page = 0 + 1))).length
        = (if ([['x'], []] : List (List Char)).get ⟨0, by decide⟩ = [] then 0 else 1) ∧
    ((pageDocs nameA [['x'], []]).filter (fun d => decide (d.page = 1 + 1))).length
        = (if ([['x'], []] : List (List Char)).get ⟨1, by decide⟩ = [] then 0 else 1) :=
  ⟨page_omitted_iff_empty nameA [['x'], []] 0 (by decide),
   page_omitted_iff_empty nameA [['x'], []] 1 (by decide)⟩

/-- Every doc the page loop yields carries the file's name as its
source. -/
lemma pageDocsAux_source (name : List Char) :
    ∀ (ps : List (List Char)) (n : Nat) (d : Doc), d ∈ pageDocsAux name n ps → d.source = name := by
  intro ps
  induction ps with
  | nil =>
    intro n d hd
    simp [pageDocsAux] at hd
  | cons t ts ih =>
    intro n d hd
    simp only [pageDocsAux, List.mem_append] at hd
    rcases hd with hd | hd
    · by_cases ht : t = []
      · simp [ht] at hd
      · rw [if_neg ht] at hd
        simp only [List.mem_singleton] at hd
        subst hd
        rfl
    · exact ih (n + 1) d hd

/-- Page numbers are strictly increasing along one file's docs. -/
lemma pageDocsAux_pages_sorted (name : List Char) :
    ∀ (ps : List (List Char)) (n : Nat),
      (pageDocsAux name n ps).Pairwise (fun a b => a.page < b.page) := by
  intro ps
  induction ps with
  | nil =>
    intro n
    simp [pageDocsAux]
  | cons t ts ih =>
    intro n
    simp only [pageDocsAux]
    rw [List.pairwise_append]
    refine ⟨?_, ih (n + 1), ?_⟩
    · by_cases ht : t = [] <;> simp [ht]
    · intro a ha b hb
      have hlb := pageDocsAux_page_lb name ts (n + 1) b hb
      by_cases ht : t = []
      · rw [if_pos ht] at ha
        simp at ha
      · rw [if_neg ht] at ha
        simp only [List.mem_singleton] at ha
        subst ha
        show n < b.page
        omega

/-- Claim C8: under distinct directory entries, every text unit the
loader returns comes from a file whose name passes the `.pdf` suffix
check, its page number is 1-indexed, and (source, page) provenance
pairs never collide: page numbers are unique per source. -/
theorem loader_provenance_invariants :
    ∀ (files : List PdfFile) (docs : List Doc),
      (files.map PdfFile.name).Nodup →
      load_pdfs_from_folder files = .ok docs →
      (∀ d ∈ docs, d.source ∈ files.map PdfFile.name
          ∧ isPdfName d.source = true ∧ 1 ≤ d.page) ∧
      docs.Pairwise (fun a b => a.source = b.source → a.page ≠ b.page) := by
  intro files
  induction files with
  | nil =>
    intro docs _ h
    simp only [load_pdfs_from_folder] at h
    injection h with h
    subst h
    simp
  | cons f fs ih =>
    intro docs hnd h
    rw [List.map_cons, List.nodup_cons] at hnd
    obtain ⟨hnf, hndfs⟩ := hnd
    by_cases hp : isPdfName f.name
    · simp only [load_pdfs_from_folder] at h
      rw [if_pos hp] at h
      cases hr : f.readResult with
      | error e =>
        rw [hr] at h
        cases h
      | ok pages =>
        rw [hr] at h
        cases hl : load_pdfs_from_folder fs with
        | error e =>
          rw [hl] at h
          cases h
        | ok rest =>
          rw [hl] at h
          injection h with h
          subst h
          obtain ⟨ihm, ihp⟩ := ih rest hndfs hl
          constructor
          · intro d hd
            rcases List.mem_append.mp hd with hd | hd
            · have hsrc := pageDocsAux_source f.name pages 1 d hd
              have hpg := pageDocsAux_page_lb f.name pages 1 d hd
              refine ⟨?_, ?_, hpg⟩
              · rw [List.map_cons, hsrc]
                exact List.mem_cons_self _ _
              · rw [hsrc]
                exact hp
            · obtain ⟨hmem, hpdf, hpg⟩ := ihm d hd
              refine ⟨?_, hpdf, hpg⟩
              rw [List.map_cons]
              exact List.mem_cons_of_mem _ hmem
          · rw [List.pairwise_append]
            refine ⟨?_, ihp, ?_⟩
            · exact (pageDocsAux_pages_sorted f.name pages 1).imp
                (fun hlt => fun _ => Nat.ne_of_lt hlt)
            · intro a ha b hb hseq
              have hsa := pageDocsAux_source f.name pages 1 a ha
              have hsb := (ihm b hb).1
              rw [← hseq, hsa] at hsb
              exact absurd hsb hnf
    · simp only [load_pdfs_from_folder] at h
      rw [if_neg hp] at h
      obtain ⟨ihm, ihp⟩ := ih docs hndfs h
      refine ⟨?_, ihp⟩
      intro d hd
      obtain ⟨hmem, hpdf, hpg⟩ := ihm d hd
      refine ⟨?_, hpdf, hpg⟩
      rw [List.map_cons]
      exact List.mem_cons_of_mem _ hmem

/-- Claim C8, witness on a concrete two-file corpus. -/
theorem loader_provenance_invariants_witness :
    (∀ d ∈ [dA], d.source ∈ [goodFile].map PdfFile.name
        ∧ isPdfName d.source = true ∧ 1 ≤ d.page) ∧
    ([dA] : List Doc).Pairwise (fun a b => a.source = b.source → a.page ≠ b.page) :=
  loader_provenance_invariants [goodFile] [dA] (by decide) (by decide)

/-- Claim C9: the index is built with `FAISS.from_documents(_docs, ...)`
directly over the loader's docs — no splitting — so a text unit whose
length is within any bound contributes exactly one indexed segment: the
whole of its own text, under its own provenance. -/
theorem short_unit_single_segment (maxLen : Nat) :
    ∀ (ds : List Doc) (u : Doc),
      u ∈ ds →
      ds.Pairwise (fun a b => a.source = b.source → a.page ≠ b.page) →
      u.content.length ≤ maxLen →
      (buildChain ds).indexDocs.filter
          (fun d => decide (d.source = u.source ∧ d.page = u.page)) = [u] := by
  intro ds
  induction ds with
  | nil =>
    intro u hu _ _
    simp at hu
  | cons v vs ih =>
    intro u hu hpw hlen
    have hpw' := List.pairwise_cons.mp hpw
    rcases List.mem_cons.mp hu with rfl | huvs
    · show List.filter (fun d => decide (d.source = u.source ∧ d.page = u.page)) (u :: vs) = [u]
      rw [List.filter_cons, if_pos (by simp)]
      have hnil : vs.filter (fun d => decide (d.source = u.source ∧ d.page = u.page)) = [] := by
        rw [List.filter_eq_nil_iff]
        intro b hb
        simp only [decide_eq_true_eq, not_and]
        intro hs hpg
        exact hpw'.1 b hb hs.symm hpg.symm
      rw [hnil]
    · have hv : ¬(v.source = u.source ∧ v.page = u.page) := by
        rintro ⟨hs, hp2⟩
        exact hpw'.1 u huvs hs hp2
      show List.filter (fun d => decide (d.source = u.source ∧ d.page = u.page)) (v :: vs) = [u]
      rw [List.filter_cons, if_neg (by simpa using hv)]
      exact ih u huvs hpw'.2 hlen

/-- Claim C9, witness on the concrete two-document corpus. -/
theorem short_unit_single_segment_witness :
    (buildChain docsAB).indexDocs.filter
        (fun d => decide (d.source = dA.source ∧ d.page = dA.page)) = [dA] :=
  short_unit_single_segment 5 docsAB dA (by decide) (by decide) (by decide)

end MultiPdfAgent
